import Mathlib

/-!
Shallow embedding of the buffer-reader crate (src/lib.rs): a zero-copy
cursor over an immutable byte region.

The remaining buffer (the `Cell` holding a byte slice) is modelled as a
`List Nat`; `usize` arithmetic is modelled as `Nat` arithmetic reduced
modulo `USIZE = 2 ^ 64` wherever the source performs machine arithmetic
that can wrap.  A result of type `Except Unit A` models `std::io::Result`
(the single error kind, `UnexpectedEof` with the out-of-bounds message, is
`Except.error ()`).  An outer `Option` models abnormal termination of the
Rust code (an out-of-range slice index): `none` is abnormal termination,
`some r` a normal return.
-/

set_option autoImplicit false

/-- The number of values of `usize` on a 64-bit target, that is `2 ^ 64`. -/
def USIZE : Nat := 18446744073709551616

/-- Wrapping `usize` subtraction, as performed by release-mode Rust. -/
def wsub (a b : Nat) : Nat := (a + (USIZE - b % USIZE)) % USIZE

/-- `BufferReader<'a>`: the `buffer` field holds the remaining bytes, the
suffix of the original region from the current position onward (the source
stores exactly this remaining slice in a `Cell`). -/
structure BufferReader where
  buffer : List Nat

namespace BufferReader

/-- `BufferReader::new`: wraps the provided slice, position 0. -/
def new (slice : List Nat) : BufferReader := ⟨slice⟩

/-- `BufferReader::len`: length of the remaining buffer. -/
def len (br : BufferReader) : Nat := br.buffer.length

/-- `BufferReader::is_empty`. -/
def is_empty (br : BufferReader) : Bool := br.buffer.isEmpty

/-- `BufferReader::peek_remaining`: reads the cell and never writes it, so
the reader state is returned unchanged. -/
def peek_remaining (br : BufferReader) : List Nat × BufferReader :=
  (br.buffer, br)

/-- `BufferReader::get_remaining` (consumes the reader value). -/
def get_remaining (br : BufferReader) : List Nat := br.buffer

/-- `BufferReader::check_available`: errors iff `len` exceeds the length of
the remaining buffer. -/
def check_available (br : BufferReader) (len : Nat) : Except Unit Unit :=
  if len > br.buffer.length then Except.error () else Except.ok ()

/-- `BufferReader::advance`: sets the cell to `buffer[len..]` and returns
`buffer[..len]`.  The source documents that callers must run
`check_available len` first; every call site in the source does, so the
clamping `take`/`drop` never papers over an out-of-range index. -/
def advance (br : BufferReader) (len : Nat) : List Nat × BufferReader :=
  (br.buffer.take len, ⟨br.buffer.drop len⟩)

/-- Modelled from the spec: `read_bytes` in the source calls
`self.check_and_advance(len)`, a method declared nowhere under src/ (the
call also lacks a trailing semicolon and its result is discarded).  Per
spec section 4.2 the bounds check precedes the advance: the call fails with
the out-of-bounds error when `len` exceeds the remaining length and leaves
the reader untouched, and otherwise advances by `len`, returning the
consumed sub-range. -/
def check_and_advance (br : BufferReader) (len : Nat) :
    Except Unit (List Nat) × BufferReader :=
  match check_available br len with
  | .error e => (.error e, br)
  | .ok _ =>
    let p := advance br len
    (.ok p.1, p.2)

/-- `BufferReader::read_t::<T>`, with the type parameter `T` represented by
its size in bytes; the returned reference is represented by the byte range
it reinterprets. -/
def read_t (sizeT : Nat) (br : BufferReader) :
    Except Unit (List Nat) × BufferReader :=
  match check_available br sizeT with
  | .error e => (.error e, br)
  | .ok _ =>
    let p := advance br sizeT
    (.ok p.1, p.2)

/-- `BufferReader::peek_t::<T>`: computes `end = start + size_of::<T>()`
(wrapping `usize` addition), checks availability of `end`, then slices
`peek_remaining()[start..end]`.  Rust slicing aborts when the wrapped `end`
falls below `start`; that abnormal outcome is `none`.  The cell is never
written: the state component is the unchanged input reader. -/
def peek_t (sizeT : Nat) (br : BufferReader) (start : Nat) :
    Option (Except Unit (List Nat)) × BufferReader :=
  ((match check_available br ((start + sizeT) % USIZE) with
    | .error e => some (.error e)
    | .ok _ =>
      if start ≤ (start + sizeT) % USIZE then
        some (.ok ((br.buffer.drop start).take ((start + sizeT) % USIZE - start)))
      else none),
   br)

/-- `BufferReader::read_slice_t::<T>`: the byte count is the wrapping
product `len * size_of::<T>()`, exactly as the source computes it. -/
def read_slice_t (sizeT : Nat) (br : BufferReader) (len : Nat) :
    Except Unit (List Nat) × BufferReader :=
  match check_available br ((len * sizeT) % USIZE) with
  | .error e => (.error e, br)
  | .ok _ =>
    let p := advance br ((len * sizeT) % USIZE)
    (.ok p.1, p.2)

/-- `BufferReader::peek_slice_t::<T>`: `end = start + size_of::<T>() * len`
with wrapping `usize` arithmetic, then the same check-and-slice shape as
`peek_t`. -/
def peek_slice_t (sizeT : Nat) (br : BufferReader) (start len : Nat) :
    Option (Except Unit (List Nat)) × BufferReader :=
  ((match check_available br ((start + (sizeT * len) % USIZE) % USIZE) with
    | .error e => some (.error e)
    | .ok _ =>
      if start ≤ (start + (sizeT * len) % USIZE) % USIZE then
        some (.ok ((br.buffer.drop start).take
          ((start + (sizeT * len) % USIZE) % USIZE - start)))
      else none),
   br)

/-- `BufferReader::read_byte`: checks one byte is available, advances by
one and indexes the returned slice at 0 (never empty after the check). -/
def read_byte (br : BufferReader) : Option (Except Unit Nat) × BufferReader :=
  match check_available br 1 with
  | .error e => (some (.error e), br)
  | .ok _ =>
    let p := advance br 1
    (match p.1.head? with
     | some b => some (.ok b)
     | none => none,
     p.2)

/-- `BufferReader::peek_byte`: checks a single byte is available, then
indexes `peek_remaining()[pos]` with no bound on `pos`; an out-of-range
index aborts (`none`).  The cell is never written. -/
def peek_byte (br : BufferReader) (pos : Nat) :
    Option (Except Unit Nat) × BufferReader :=
  ((match check_available br 1 with
    | .error e => some (.error e)
    | .ok _ =>
      match br.buffer[pos]? with
      | some b => some (.ok b)
      | none => none),
   br)

/-- `BufferReader::read_bytes`, as written in the source: first the stray
`self.check_and_advance(len)` call with its result discarded, then
`check_available(len)` and `advance(len)`. -/
def read_bytes (br : BufferReader) (len : Nat) :
    Except Unit (List Nat) × BufferReader :=
  let r1 := check_and_advance br len
  match check_available r1.2 len with
  | .error e => (.error e, r1.2)
  | .ok _ =>
    let p := advance r1.2 len
    (.ok p.1, p.2)

/-- `BufferReader::peek_bytes`: `end = start + len` (wrapping), check, then
slice `peek_remaining()[start..end]`; no cell write. -/
def peek_bytes (br : BufferReader) (start len : Nat) :
    Option (Except Unit (List Nat)) × BufferReader :=
  ((match check_available br ((start + len) % USIZE) with
    | .error e => some (.error e)
    | .ok _ =>
      if start ≤ (start + len) % USIZE then
        some (.ok ((br.buffer.drop start).take ((start + len) % USIZE - start)))
      else none),
   br)

/-- The `while i < bound` loop of `BufferReader::find_bytes`, with the
number of iterations left as structural fuel (`bound - i`, fixed because
the loop bound is loop-invariant).  Each iteration compares
`buffer[i..pat_len + i]` with `pat`; `pat_len + i` is wrapping `usize`
addition and the slice aborts (`none`) when its bounds are out of range,
exactly as Rust slice indexing does. -/
def findLoop (buffer pat : List Nat) : Nat → Nat → Option (Option Nat)
  | _, 0 => some none
  | i, k+1 =>
    if (pat.length + i) % USIZE ≤ buffer.length ∧ i ≤ (pat.length + i) % USIZE then
      if (buffer.drop i).take ((pat.length + i) % USIZE - i) = pat then
        some (some i)
      else findLoop buffer pat (i+1) k
    else none

/-- `BufferReader::find_bytes`: the loop bound is
`buffer.len() - (pat.len() - 1)` computed with wrapping `usize`
subtraction.  The cell is never written. -/
def find_bytes (br : BufferReader) (pat : List Nat) :
    Option (Option Nat) × BufferReader :=
  (findLoop br.buffer pat 0 (wsub br.buffer.length (wsub pat.length 1)), br)

/-- The `Read` implementation for `BufferReader` (feature `read`): copies
bytes into the caller buffer `buf`, returning the reported count together
with the new contents of `buf`. -/
def read (br : BufferReader) (buf : List Nat) :
    (Except Unit Nat × List Nat) × BufferReader :=
  match check_available br buf.length with
  | .ok _ =>
    let p := advance br buf.length
    ((Except.ok buf.length, p.1), p.2)
  | .error _ =>
    let l := br.buffer.length
    let p := advance br l
    ((Except.ok l, p.1 ++ buf.drop l), p.2)

end BufferReader

/-- The pattern `pat` occurs in `buffer` at offset `i`. -/
def occursAt (buffer pat : List Nat) (i : Nat) : Prop :=
  (buffer.drop i).take pat.length = pat

instance (buffer pat : List Nat) (i : Nat) : Decidable (occursAt buffer pat i) :=
  inferInstanceAs (Decidable ((buffer.drop i).take pat.length = pat))

open BufferReader

/-- Claim C1 (code bug): on a 13-byte buffer, `read_bytes 5` succeeds but
returns bytes 5..10 instead of the first five bytes, and `read_bytes 7`
fails although 7 is at most the remaining length 13 — the stray
`check_and_advance` call makes the method check and advance twice, against
its own doc comment and against the `read_bytes` unit test of the
repository. -/
theorem read_bytes_bug :
    (read_bytes ⟨[0, 1, 2, 3, 4, 5, 6, 7, 8, 9, 10, 11, 12]⟩ 5).1
      = Except.ok [5, 6, 7, 8, 9] ∧
    (read_bytes ⟨[0, 1, 2, 3, 4, 5, 6, 7, 8, 9, 10, 11, 12]⟩ 7).1
      = Except.error () :=
  ⟨rfl, rfl⟩

/-- Claim C2 (code bug): `read_bytes 7` on a 13-byte buffer returns the
out-of-bounds error, yet the remaining length drops from 13 to 6, because
the stray `check_and_advance` call advanced by 7 before the failing
check. -/
theorem read_bytes_error_mutates :
    (read_bytes ⟨[0, 1, 2, 3, 4, 5, 6, 7, 8, 9, 10, 11, 12]⟩ 7).1
      = Except.error () ∧
    ((read_bytes ⟨[0, 1, 2, 3, 4, 5, 6, 7, 8, 9, 10, 11, 12]⟩ 7).2).len = 6 ∧
    (⟨[0, 1, 2, 3, 4, 5, 6, 7, 8, 9, 10, 11, 12]⟩ : BufferReader).len = 13 :=
  ⟨rfl, rfl, rfl⟩

/-- Claim C8 (code bug): two successful `read_bytes 2` calls on a 13-byte
buffer return the ranges `[2, 3]` and `[6, 7]` — the second does not
immediately follow the first — and leave remaining length 5 instead of
13 - (2 + 2) = 9, because each call advances twice. -/
theorem read_bytes_seq_bug :
    (read_bytes ⟨[0, 1, 2, 3, 4, 5, 6, 7, 8, 9, 10, 11, 12]⟩ 2).1
      = Except.ok [2, 3] ∧
    (read_bytes (read_bytes ⟨[0, 1, 2, 3, 4, 5, 6, 7, 8, 9, 10, 11, 12]⟩ 2).2 2).1
      = Except.ok [6, 7] ∧
    ((read_bytes (read_bytes ⟨[0, 1, 2, 3, 4, 5, 6, 7, 8, 9, 10, 11, 12]⟩ 2).2 2).2).len
      = 5 :=
  ⟨rfl, rfl, rfl⟩

/-- Claim C9 (code bug): with `size_of::<T>() = 2` and
`count = 2 ^ 63`, the product `count * 2` wraps to `0` modulo `2 ^ 64`,
so both `read_slice_t` and `peek_slice_t` pass the bounds check on an
empty buffer and return success, where the claim requires the
out-of-bounds error because the true product `2 ^ 64` exceeds the
remaining length `0`. -/
theorem slice_mul_overflow_bug :
    (read_slice_t 2 ⟨[]⟩ 9223372036854775808).1 = Except.ok [] ∧
    (peek_slice_t 2 ⟨[]⟩ 0 9223372036854775808).1 = some (Except.ok []) :=
  ⟨rfl, rfl⟩

/-- Claim C5 (code bug): on the 2-byte buffer `[1, 2]`, the empty pattern
makes the loop bound `buffer.len() - (pat.len() - 1)` underflow and wrap to
3, and the first iteration reports a match at offset 0 instead of the
claimed not-found; the 4-byte pattern `[3, 4, 5, 6]` wraps the bound to
`2 ^ 64 - 1` and the first iteration slices `buffer[0..4]` out of range,
aborting instead of returning not-found. -/
theorem find_bytes_edge_bug :
    (find_bytes ⟨[1, 2]⟩ []).1 = some (some 0) ∧
    (find_bytes ⟨[1, 2]⟩ [3, 4, 5, 6]).1 = none :=
  ⟨rfl, rfl⟩

/-- Claim C3: every peek operation — `peek_t`, `peek_slice_t`, `peek_byte`,
`peek_bytes`, `peek_remaining`, `find_bytes` — returns the reader state
unchanged, so the remaining length observed after the call equals the one
observed before it, whether the operation succeeds or fails: none of these
operations ever writes the cell. -/
theorem peek_preserves_remaining (br : BufferReader)
    (sizeT start l pos : Nat) (pat : List Nat) :
    ((peek_t sizeT br start).2).len = br.len ∧
    ((peek_slice_t sizeT br start l).2).len = br.len ∧
    ((peek_byte br pos).2).len = br.len ∧
    ((peek_bytes br start l).2).len = br.len ∧
    ((peek_remaining br).2).len = br.len ∧
    ((find_bytes br pat).2).len = br.len :=
  ⟨rfl, rfl, rfl, rfl, rfl, rfl⟩

/-- Claim C10: the `Read` implementation called with a zero-length
destination buffer reports a count of 0 and leaves the reader unchanged;
in particular it does so on the nonempty one-byte reader, so a reported
count of 0 does not imply the reader is empty. -/
theorem read_zero_len_buf :
    (∀ br : BufferReader, read br [] = ((Except.ok 0, []), br)) ∧
    (0 < (⟨[9]⟩ : BufferReader).len ∧
      (read ⟨[9]⟩ []).1.1 = Except.ok 0 ∧ (read ⟨[9]⟩ []).2 = ⟨[9]⟩) :=
  ⟨fun _ => rfl, Nat.zero_lt_one, rfl, rfl⟩

/-- Claim C4 counterexample: on the 2-byte reader `[7, 8]`, the offset 5 is
past the end of the remaining bytes, yet `peek_byte` does not fail with the
out-of-bounds error — it performs the out-of-range index
`peek_remaining()[5]` and aborts (`none`). -/
theorem peek_byte_oob_cex :
    (⟨[7, 8]⟩ : BufferReader).len ≤ 5 ∧
    (peek_byte ⟨[7, 8]⟩ 5).1 = none ∧
    (peek_byte ⟨[7, 8]⟩ 5).1 ≠ some (Except.error ()) := by
  refine ⟨by decide, rfl, fun h => ?_⟩
  rw [show (peek_byte ⟨[7, 8]⟩ 5).1 = none from rfl] at h
  exact Option.noConfusion h

/-- Claim C4 amended: `peek_byte offset` never consumes; it fails with the
out-of-bounds error exactly when the remaining length is 0 (the check only
ensures one byte is available); it returns a byte exactly when that byte
sits at `offset` within the remaining bytes; and when the buffer is
nonempty but `offset` is at or past the end it performs an out-of-range
index (abnormal termination) instead of returning the error. -/
theorem peek_byte_amended (br : BufferReader) (pos : Nat) :
    (peek_byte br pos).2 = br ∧
    ((peek_byte br pos).1 = some (Except.error ()) ↔ br.len = 0) ∧
    (∀ b, (peek_byte br pos).1 = some (Except.ok b) ↔
      (0 < br.len ∧ br.buffer[pos]? = some b)) ∧
    ((peek_byte br pos).1 = none ↔ (0 < br.len ∧ br.len ≤ pos)) := by
  refine ⟨rfl, ?_, ?_, ?_⟩
  · by_cases h : br.buffer.length = 0
    · simp [peek_byte, check_available, len, h]
    · cases hg : br.buffer[pos]? <;>
        simp [peek_byte, check_available, len, h, hg, Nat.pos_of_ne_zero h]
  · intro b
    by_cases h : br.buffer.length = 0
    · have hg : br.buffer[pos]? = none := List.getElem?_eq_none (by omega)
      simp [peek_byte, check_available, len, h, hg]
    · cases hg : br.buffer[pos]?
      · simp [peek_byte, check_available, len, h, hg]
      · simp [peek_byte, check_available, len, h, hg, Nat.pos_of_ne_zero h, eq_comm]
  · by_cases h : br.buffer.length = 0
    · simp [peek_byte, check_available, len, h]
    · cases hg : br.buffer[pos]?
      · have hle := List.getElem?_eq_none_iff.mp hg
        simp [peek_byte, check_available, len, h, hg]
        omega
      · obtain ⟨hlt, -⟩ := List.getElem?_eq_some.mp hg
        simp [peek_byte, check_available, len, h, hg]
        omega

/-- Wrapping subtraction agrees with truncated subtraction when the
minuend is in `usize` range and at least the subtrahend. -/
theorem wsub_eq (a b : Nat) (hb : b ≤ a) (ha : a < USIZE) : wsub a b = a - b := by
  simp only [wsub, USIZE] at ha ⊢
  omega

/-- An occurrence of a nonempty pattern fits inside the buffer. -/
theorem occursAt_le {buffer pat : List Nat} {r : Nat} (hp : 1 ≤ pat.length)
    (h : occursAt buffer pat r) : r + pat.length ≤ buffer.length := by
  have h1 : (List.take pat.length (List.drop r buffer)).length = pat.length := by
    unfold occursAt at h
    rw [h]
  rw [List.length_take, List.length_drop] at h1
  have h2 : pat.length ⊓ (buffer.length - r) ≤ buffer.length - r := inf_le_right
  rw [h1] at h2
  omega

/-- Soundness and completeness of the search loop away from the wrapping
edge cases: with a nonempty pattern fitting a buffer of machine-represent-
able length, the loop starting at `i` with `buffer.length + 1 - pat.length
- i` iterations left reports exactly the first occurrence at or after `i`,
and reports not-found exactly when there is none. -/
theorem findLoop_spec (buffer pat : List Nat) (hp : 1 ≤ pat.length)
    (hbuf : buffer.length < USIZE) (hle : pat.length ≤ buffer.length) :
    ∀ k i, i + k = buffer.length + 1 - pat.length →
      ((∀ r, BufferReader.findLoop buffer pat i k = some (some r) ↔
          (i ≤ r ∧ occursAt buffer pat r ∧
            ∀ j, i ≤ j → j < r → ¬ occursAt buffer pat j)) ∧
       (BufferReader.findLoop buffer pat i k = some none ↔
          ∀ j, i ≤ j → ¬ occursAt buffer pat j)) := by
  intro k
  induction k with
  | zero =>
    intro i hk
    constructor
    · intro r
      constructor
      · intro hcontra
        simp [BufferReader.findLoop] at hcontra
      · rintro ⟨hir, hocc, -⟩
        have := occursAt_le hp hocc
        omega
    · constructor
      · intro _ j hij hocc
        have := occursAt_le hp hocc
        omega
      · intro _
        simp [BufferReader.findLoop]
  | succ k ih =>
    intro i hk
    have hi : pat.length + i ≤ buffer.length := by omega
    have he : (pat.length + i) % USIZE = pat.length + i :=
      Nat.mod_eq_of_lt (by omega)
    have hstep : BufferReader.findLoop buffer pat i (k+1) =
        (if (buffer.drop i).take pat.length = pat then some (some i)
         else BufferReader.findLoop buffer pat (i+1) k) := by
      simp only [BufferReader.findLoop]
      rw [he, if_pos ⟨hi, Nat.le_add_left i pat.length⟩, Nat.add_sub_cancel]
    by_cases hocc : (buffer.drop i).take pat.length = pat
    · rw [hstep, if_pos hocc]
      constructor
      · intro r
        constructor
        · intro hr
          have hir : i = r := by simpa using hr
          subst hir
          exact ⟨Nat.le_refl i, hocc, fun j h1 h2 _ => by omega⟩
        · rintro ⟨hir, hoccr, hmin⟩
          rcases Nat.lt_or_ge i r with hlt | hge
          · exact absurd hocc (hmin i (Nat.le_refl i) hlt)
          · have hri : r = i := by omega
            rw [hri]
      · constructor
        · intro hcontra
          simp at hcontra
        · intro hall
          exact absurd hocc (hall i (Nat.le_refl i))
    · rw [hstep, if_neg hocc]
      have hk1 : (i+1) + k = buffer.length + 1 - pat.length := by omega
      obtain ⟨ih1, ih2⟩ := ih (i+1) hk1
      constructor
      · intro r
        rw [ih1 r]
        constructor
        · rintro ⟨h1, h2, h3⟩
          refine ⟨by omega, h2, fun j hij hjr hoj => ?_⟩
          rcases Nat.lt_or_ge j (i+1) with hji | hji
          · have hjeq : j = i := by omega
            subst hjeq
            exact hocc hoj
          · exact h3 j hji hjr hoj
        · rintro ⟨h1, h2, h3⟩
          have hir : i ≠ r := by
            intro hc
            subst hc
            exact hocc h2
          exact ⟨by omega, h2, fun j hij hjr => h3 j (by omega) hjr⟩
      · rw [ih2]
        constructor
        · intro hall j hij hoj
          rcases Nat.lt_or_ge j (i+1) with hji | hji
          · have hjeq : j = i := by omega
            subst hjeq
            exact hocc hoj
          · exact hall j hji hoj
        · intro hall j hij
          exact hall j (by omega)

/-- Claim C6: for every nonempty pattern no longer than the remaining
bytes (on a buffer of machine-representable length), `find_bytes` reports
the smallest offset, relative to the current position, at which the
pattern occurs within the remaining bytes, reports not-found exactly when
the pattern occurs nowhere in them, and returns the reader state
unchanged in either case. -/
theorem find_bytes_correct (br : BufferReader) (pat : List Nat)
    (hp : 1 ≤ pat.length) (hle : pat.length ≤ br.buffer.length)
    (hbuf : br.buffer.length < USIZE) :
    (find_bytes br pat).2 = br ∧
    (∀ r, (find_bytes br pat).1 = some (some r) ↔
      (occursAt br.buffer pat r ∧ ∀ j, j < r → ¬ occursAt br.buffer pat j)) ∧
    ((find_bytes br pat).1 = some none ↔ ∀ j, ¬ occursAt br.buffer pat j) := by
  have h1 : wsub pat.length 1 = pat.length - 1 :=
    wsub_eq _ _ hp (by omega)
  have h2 : wsub br.buffer.length (pat.length - 1) =
      br.buffer.length + 1 - pat.length := by
    rw [wsub_eq _ _ (by omega) hbuf]
    omega
  have hfb : (find_bytes br pat).1 =
      BufferReader.findLoop br.buffer pat 0 (br.buffer.length + 1 - pat.length) := by
    unfold BufferReader.find_bytes
    rw [h1, h2]
  obtain ⟨hs1, hs2⟩ := findLoop_spec br.buffer pat hp hbuf hle
      (br.buffer.length + 1 - pat.length) 0 (by omega)
  refine ⟨rfl, ?_, ?_⟩
  · intro r
    rw [hfb, hs1 r]
    constructor
    · rintro ⟨-, hoc, h3⟩
      exact ⟨hoc, fun j hj => h3 j (Nat.zero_le j) hj⟩
    · rintro ⟨hoc, h3⟩
      exact ⟨Nat.zero_le r, hoc, fun j _ hj => h3 j hj⟩
  · rw [hfb, hs2]
    constructor
    · intro hall j
      exact hall j (Nat.zero_le j)
    · intro hall j _
      exact hall j

/-- Witness for claim C6 at a concrete input: on the buffer `[1, 2, 3]`
the pattern `[2, 3]` is found at offset 1. -/
theorem find_bytes_correct_witness :
    (find_bytes ⟨[1, 2, 3]⟩ [2, 3]).1 = some (some 1) :=
  ((find_bytes_correct ⟨[1, 2, 3]⟩ [2, 3] (by decide) (by decide)
      (by decide)).2.1 1).mpr (by decide)

/-- Claim C7: the stream adapter never fails and only reports counts
between 0 and the destination length: with at least `buf.length` bytes
remaining it fills the whole destination with the next bytes, advances by
that length and reports it; with fewer bytes remaining it fills exactly
the remaining bytes (leaving the tail of the destination unchanged),
advances to the end and reports the smaller remaining count. -/
theorem stream_read_correct (br : BufferReader) (buf : List Nat) :
    (∃ n, (read br buf).1.1 = Except.ok n ∧ n ≤ buf.length) ∧
    (buf.length ≤ br.buffer.length →
      read br buf = ((Except.ok buf.length, br.buffer.take buf.length),
        ⟨br.buffer.drop buf.length⟩)) ∧
    (br.buffer.length < buf.length →
      read br buf = ((Except.ok br.buffer.length,
        br.buffer ++ buf.drop br.buffer.length), ⟨[]⟩)) := by
  by_cases h : buf.length > br.buffer.length
  · have hc : check_available br buf.length = Except.error () := by
      simp [check_available, h]
    refine ⟨⟨br.buffer.length, ?_, by omega⟩,
      fun h2 => absurd h2 (by omega), fun _ => ?_⟩
    · unfold BufferReader.read
      rw [hc]
    · unfold BufferReader.read
      rw [hc]
      simp [advance, List.take_length, List.drop_length]
  · have hc : check_available br buf.length = Except.ok () := by
      simp [check_available, h]
    refine ⟨⟨buf.length, ?_, Nat.le_refl _⟩, fun _ => ?_,
      fun h2 => absurd h2 (by omega)⟩
    · unfold BufferReader.read
      rw [hc]
    · unfold BufferReader.read
      rw [hc]
      rfl

/-- Witness for claim C7 at concrete inputs: a 3-byte reader fills a
2-byte destination completely and reports 2; a 1-byte reader partially
fills a 2-byte destination, leaving its tail untouched, and reports 1
without an error. -/
theorem stream_read_correct_witness :
    read ⟨[1, 2, 3]⟩ [0, 0] = ((Except.ok 2, [1, 2]), ⟨[3]⟩) ∧
    read ⟨[1]⟩ [0, 0] = ((Except.ok 1, [1, 0]), ⟨[]⟩) :=
  ⟨(stream_read_correct ⟨[1, 2, 3]⟩ [0, 0]).2.1 (by decide),
   (stream_read_correct ⟨[1]⟩ [0, 0]).2.2 (by decide)⟩
